import Mathlib

/-!
Verification of the OpenAPI generation engine of `moleculer-auto-openapi`
(`src/OpenApiGenerator.ts` and `src/Converters/FastestValidatorConverter.ts`)
against its natural-language specification.

The embedding below translates the JavaScript/TypeScript source into Lean:
plain JS objects that the code traverses generically are modelled by the
`JVal` JSON tree; OpenAPI schema fragments (whose fixed set of keys the
generator reads and writes) are modelled by the `Schema` inductive; the
generator's instance state (`this.components.schemas`, plus the logger's
warning stream) is threaded explicitly through a `GenState` value.

JS-specific semantics that matter are modelled explicitly:
- object key/value stores are association lists with JS insertion-order
  update semantics (`lookupKV` / `setKV` / `spreadKV` for `{...a, ...b}`);
- truthiness tests (`if (x)`) on numbers are false exactly at `0`, on
  strings exactly at `""`, on possibly-absent values at `undefined`
  (modelled by `Option`);
- loose inequality `rule[optional] != true` holds for every value other
  than `true`.

Helper modules `commons.ts` and `constants.ts` of the repository are not
part of the given sources; the few facts taken from them (the alphabetic
sorter, the placeholder matcher, the internal extension key names, the
body-parser content-type map, default field names) are modelled from the
specification text and are marked `Modelled from the spec:` at their
definition sites.
-/

/-- A JSON-like value: the generic object tree that `removeExtensions`
(and other generic object-traversing code) walks. Objects are ordered
key/value lists, matching JS object insertion order. -/
inductive JVal where
  | str (s : String)
  | num (n : Int)
  | bool (b : Bool)
  | arr (items : List JVal)
  | obj (fields : List (String × JVal))

/-- JS truthiness for `JVal`: `0`, `""` and `false` are falsy, all
arrays and objects (even empty ones) are truthy. -/
def jsTruthy : JVal → Bool
  | .str s => s ≠ ""
  | .num n => n ≠ 0
  | .bool b => b
  | .arr _ => true
  | .obj _ => true

/-- Modelled from the spec: the four internal metadata/marker keys
(`EOAExtensions` in the repository's `constants.ts`, which is not among
the given sources) — an optionality marker plus the
description/summary/deprecated documentation side-channel, all stripped
from the final document. -/
def extensionKeys : List String :=
  ["x-internal-optional", "x-internal-description", "x-internal-summary", "x-internal-deprecated"]

mutual
/-- `OpenApiGenerator.removeExtensions` (OpenApiGenerator.ts:595-613):
arrays recurse element-wise; objects first have every internal extension
key deleted at their own level and are then rebuilt entry-by-entry with
the sweep applied to each value; primitives are returned unchanged. -/
def removeExtensions : JVal → JVal
  | .str s => .str s
  | .num n => .num n
  | .bool b => .bool b
  | .arr items => .arr (removeExtensionsList items)
  | .obj fields => .obj (removeExtensionsFields fields)

/-- Element-wise sweep over an array's items (the `obj.map` in
`removeExtensions`). -/
def removeExtensionsList : List JVal → List JVal
  | [] => []
  | x :: xs => removeExtensions x :: removeExtensionsList xs

/-- The object case of `removeExtensions`: the `delete` loop followed by
`Object.fromEntries(Object.entries(obj).map ...)` — extension keys are
dropped, every surviving value is swept recursively. -/
def removeExtensionsFields : List (String × JVal) → List (String × JVal)
  | [] => []
  | (k, v) :: rest =>
    if extensionKeys.contains k then removeExtensionsFields rest
    else (k, removeExtensions v) :: removeExtensionsFields rest
end

mutual
/-- A document tree is free of internal marker fields: no object node at
any depth (also inside arrays) carries an extension key. -/
def extFree : JVal → Bool
  | .str _ => true
  | .num _ => true
  | .bool _ => true
  | .arr items => extFreeList items
  | .obj fields => extFreeFields fields

/-- `extFree` over all elements of an array. -/
def extFreeList : List JVal → Bool
  | [] => true
  | x :: xs => extFree x && extFreeList xs

/-- `extFree` over all entries of an object: no entry key is an
extension key, and every value is itself free of markers. -/
def extFreeFields : List (String × JVal) → Bool
  | [] => true
  | (k, v) :: rest => !extensionKeys.contains k && extFree v && extFreeFields rest
end

mutual
theorem extFree_removeExtensions (j : JVal) : extFree (removeExtensions j) = true := by
  cases j with
  | str s => rfl
  | num n => rfl
  | bool b => rfl
  | arr items => simpa [removeExtensions, extFree] using extFreeList_removeExtensionsList items
  | obj fields => simpa [removeExtensions, extFree] using extFreeFields_removeExtensionsFields fields

theorem extFreeList_removeExtensionsList (l : List JVal) :
    extFreeList (removeExtensionsList l) = true := by
  cases l with
  | nil => rfl
  | cons x xs =>
    simp only [removeExtensionsList, extFreeList, Bool.and_eq_true]
    exact ⟨extFree_removeExtensions x, extFreeList_removeExtensionsList xs⟩

theorem extFreeFields_removeExtensionsFields (l : List (String × JVal)) :
    extFreeFields (removeExtensionsFields l) = true := by
  cases l with
  | nil => rfl
  | cons kv rest =>
    obtain ⟨k, v⟩ := kv
    cases hc : extensionKeys.contains k with
    | true =>
      simp only [removeExtensionsFields, hc, if_true]
      exact extFreeFields_removeExtensionsFields rest
    | false =>
      simp only [removeExtensionsFields, hc, Bool.false_eq_true, if_false, extFreeFields,
        Bool.not_false, Bool.true_and, Bool.and_eq_true]
      exact ⟨extFree_removeExtensions v, extFreeFields_removeExtensionsFields rest⟩
end

/-- Claim C6: every document returned by `generate()` is free of internal
marker fields — after the final recursive stripping pass
(`removeExtensions`, applied to the whole document tree as the last step
of `generate`), no node anywhere in the resulting tree (objects nested at
any depth, including inside arrays) carries any of the internal
extension/marker keys. -/
theorem removeExtensions_strips_all_markers (document : JVal) :
    extFree (removeExtensions document) = true :=
  extFree_removeExtensions document

/-- The fields of an OpenAPI schema fragment that the generator reads or
writes, each `none` when the JS object lacks the key. `σ` abstracts the
recursive occurrences (instantiated with `Schema` below). `dflt` models
the source's `default` key, `ref` its `$ref` key; the four `ext*` fields
model the internal extension keys carried on fragments produced by the
converter (`EOAExtensions.optional/description/summary/deprecated`). -/
structure SchemaF (σ : Type) where
  type : Option String := none
  properties : Option (List (String × σ)) := none
  items : Option σ := none
  oneOf : Option (List σ) := none
  allOf : Option (List σ) := none
  anyOf : Option (List σ) := none
  required : Option (List String) := none
  dflt : Option JVal := none
  title : Option String := none
  description : Option String := none
  summary : Option String := none
  deprecated : Option Bool := none
  ref : Option String := none
  format : Option String := none
  uniqueItems : Option Bool := none
  minItems : Option Nat := none
  maxItems : Option Nat := none
  examples : Option (List JVal) := none
  extOptional : Option Bool := none
  extDescription : Option String := none
  extSummary : Option String := none
  extDeprecated : Option Bool := none

/-- An OpenAPI schema fragment (`OA3_1.SchemaObject | OA3_1.ReferenceObject`):
a JS object over the key set the generator manipulates. -/
inductive Schema where
  | mk (f : SchemaF Schema)

/-- Accessor for the single constructor's field bundle. -/
def Schema.fields : Schema → SchemaF Schema
  | .mk f => f

/-- `component.$ref` is truthy — `isReferenceObject`
(OpenApiGenerator.ts:411-413): the `$ref` key is present and non-empty
(JS `!!` on a string is false exactly on `""`). -/
def isReferenceObject (s : Schema) : Bool :=
  match s.fields.ref with
  | some r => r ≠ ""
  | none => false

/-- Key lookup in a JS object modelled as an association list (first
match wins; a well-formed JS object has unique keys). -/
def lookupKV {α : Type} (k : String) : List (String × α) → Option α
  | [] => none
  | (k', v) :: rest => if k' = k then some v else lookupKV k rest

/-- JS `obj[k] = v`: an existing key keeps its insertion position and has
its value replaced; a fresh key is appended. -/
def setKV {α : Type} (k : String) (v : α) : List (String × α) → List (String × α)
  | [] => [(k, v)]
  | (k', v') :: rest => if k' = k then (k, v) :: rest else (k', v') :: setKV k v rest

/-- JS spread `{...a, ...b}`: keys of `a` in their order (values
overridden by `b` where both have the key), then keys of `b` absent from
`a`, in `b`'s order. -/
def spreadKV {α : Type} (a b : List (String × α)) : List (String × α) :=
  (a.map (fun kv => (kv.1, (lookupKV kv.1 b).getD kv.2)))
    ++ b.filter (fun kv => (lookupKV kv.1 a).isNone)

/-- Number of entries stored under key `k`. -/
def countKey {α : Type} (k : String) (l : List (String × α)) : Nat :=
  (l.filter (fun kv => kv.1 = k)).length

/-- The generator state threaded through schema-component creation: the
instance's accumulated `this.components.schemas` store and the logger's
warning stream. -/
structure GenState where
  schemas : List (String × Schema) := []
  warnings : List String := []

/-- The non-fatal collision warning text of
`_createSchemaComponentFromObject` (OpenApiGenerator.ts:505). -/
def schemaCollisionWarning (schemeName : String) : String :=
  "Generator - schema " ++ schemeName ++ " already exist and will be overwrite"

mutual
/-- `OpenApiGenerator._createSchemaComponentFromObject`
(OpenApiGenerator.ts:483-518): converts each field through
`_createSchemaPartFromRule` under the name `schemeName.field`, collects
into `required` every field whose fragment's optional marker is not
`true` (JS loose `!= true`), warns non-fatally when `schemeName` is
already registered, stores the assembled object component under
`schemeName` (overwriting), and returns a `$ref` to it. -/
def createSchemaComponentFromObject (schemeName : String) (obj : List (String × Schema))
    (customDefault : Option JVal) (s : GenState) : Schema × GenState :=
  let r := processProperties schemeName obj s
  let properties := r.1
  let required := r.2.1
  let s1 := r.2.2
  let s2 : GenState :=
    if (lookupKV schemeName s1.schemas).isSome then
      { s1 with warnings := s1.warnings ++ [schemaCollisionWarning schemeName] }
    else s1
  let comp : Schema := Schema.mk
    { type := some "object"
      properties := some properties
      required := if required.length > 0 then some required else none
      dflt := customDefault }
  (Schema.mk { ref := some ("#/components/schemas/" ++ schemeName) },
   { s2 with schemas := setKV schemeName comp s2.schemas })
termination_by (sizeOf obj, 1)

/-- The `Object.entries(obj).map` body of
`_createSchemaComponentFromObject` (OpenApiGenerator.ts:493-502): in
field order, push the field onto the required list when its rule's
optional marker is not `true`, and convert the rule under
`schemeName.field`. Returns (properties, required, state). -/
def processProperties (schemeName : String) (l : List (String × Schema)) (s : GenState) :
    (List (String × Schema)) × (List String) × GenState :=
  match l with
  | [] => ([], [], s)
  | (fieldName, rule) :: rest =>
    let nextSchemeName := schemeName ++ "." ++ fieldName
    let c := createSchemaPartFromRule nextSchemeName rule s
    let r2 := processProperties schemeName rest c.2
    ((fieldName, c.1) :: r2.1,
     (if rule.fields.extOptional ≠ some true then [fieldName] else []) ++ r2.2.1,
     r2.2.2)
termination_by (sizeOf l, 0)

/-- `OpenApiGenerator._createSchemaPartFromRule`
(OpenApiGenerator.ts:540-584): copies the extension side-channel onto the
fragment's `description`/`title`/`deprecated` keys, then: an object rule
with properties becomes a child component (returned as a
summary/deprecated/description-decorated `$ref`); an array rule with
items recurses into the items under the same name; members of a
one-of/any-of/all-of composition that are object-typed are converted
under `name.<position>` with one shared position counter; anything else
is returned as mutated. -/
def createSchemaPartFromRule (nextSchemeName : String) (rule : Schema) (s : GenState) :
    Schema × GenState :=
  match rule with
  | .mk ⟨t, p, it, o, a, y, r, d, _ti, _de, su, _dep, rf, fo, ui, mi, ma, ex, eo, edc, esm, edp⟩ =>
    match t, p, it with
    | some "object", some props, _ =>
      let c := createSchemaComponentFromObject nextSchemeName props d s
      (Schema.mk { summary := esm, deprecated := edp, description := edc,
                   ref := c.1.fields.ref }, c.2)
    | some "array", _, some itemsSchema =>
      let c := createSchemaPartFromRule nextSchemeName itemsSchema s
      (Schema.mk ⟨t, p, some c.1, o, a, y, r, d, esm, edc, su, edp, rf, fo, ui, mi, ma, ex,
                  eo, edc, esm, edp⟩, c.2)
    | _, _, _ =>
      if o.isSome || a.isSome || y.isSome then
        let ro := processMultiMembers nextSchemeName 0 o s
        let ra := processMultiMembers nextSchemeName ro.2.1 a ro.2.2
        let ry := processMultiMembers nextSchemeName ra.2.1 y ra.2.2
        (Schema.mk ⟨t, p, it, ro.1, ra.1, ry.1, r, d, esm, edc, su, edp, rf, fo, ui, mi, ma, ex,
                    eo, edc, esm, edp⟩, ry.2.2)
      else
        (Schema.mk ⟨t, p, it, o, a, y, r, d, esm, edc, su, edp, rf, fo, ui, mi, ma, ex,
                    eo, edc, esm, edp⟩, s)
termination_by (sizeOf rule, 0)

/-- One `rule[property].map` pass of the composition branch of
`_createSchemaPartFromRule` (OpenApiGenerator.ts:564-581): non-object
members pass through; object members are converted under
`name.<counter>`, the counter incrementing only on object members and
carrying across the composition properties. Absent properties are left
absent. Returns (mapped members, counter, state). -/
def processMultiMembers (nextSchemeName : String) (i : Nat) (l : Option (List Schema))
    (s : GenState) : Option (List Schema) × Nat × GenState :=
  match l with
  | none => (none, i, s)
  | some members =>
    let r := processMultiList nextSchemeName i members s
    (some r.1, r.2.1, r.2.2)
termination_by (sizeOf l, 0)

/-- Element-wise traversal for `processMultiMembers`. -/
def processMultiList (nextSchemeName : String) (i : Nat) (l : List Schema) (s : GenState) :
    List Schema × Nat × GenState :=
  match l with
  | [] => ([], i, s)
  | member :: rest =>
    if member.fields.type = some "object" then
      let c := createSchemaPartFromRule (nextSchemeName ++ "." ++ toString i) member s
      let r := processMultiList nextSchemeName (i + 1) rest c.2
      (c.1 :: r.1, r.2.1, r.2.2)
    else
      let r := processMultiList nextSchemeName i rest s
      (member :: r.1, r.2.1, r.2.2)
termination_by (sizeOf l, 0)
end

theorem lookupKV_setKV_self {α : Type} (k : String) (v : α) (l : List (String × α)) :
    lookupKV k (setKV k v l) = some v := by
  induction l with
  | nil => simp [setKV, lookupKV]
  | cons kv rest ih =>
    obtain ⟨k', v'⟩ := kv
    by_cases h : k' = k
    · simp [setKV, h, lookupKV]
    · simp [setKV, h, lookupKV, ih]

theorem lookupKV_setKV_ne {α : Type} (j k : String) (v : α) (l : List (String × α))
    (h : j ≠ k) : lookupKV j (setKV k v l) = lookupKV j l := by
  induction l with
  | nil => simp [setKV, lookupKV, Ne.symm h]
  | cons kv rest ih =>
    obtain ⟨k', v'⟩ := kv
    by_cases hk : k' = k
    · subst hk
      simp [setKV, lookupKV, Ne.symm h]
    · simp [setKV, hk, lookupKV, ih]

theorem countKey_cons {α : Type} (j k : String) (v : α) (l : List (String × α)) :
    countKey j ((k, v) :: l) = (if k = j then 1 else 0) + countKey j l := by
  simp only [countKey, List.filter_cons]
  by_cases h : k = j
  · simp [h, Nat.add_comm]
  · simp [h]

theorem countKey_setKV_ne {α : Type} (j k : String) (v : α) (l : List (String × α))
    (h : j ≠ k) : countKey j (setKV k v l) = countKey j l := by
  induction l with
  | nil => simp [setKV, countKey, List.filter_cons, Ne.symm h]
  | cons kv rest ih =>
    obtain ⟨k', v'⟩ := kv
    by_cases hk : k' = k
    · subst hk
      rw [setKV, if_pos rfl, countKey_cons, countKey_cons]
    · rw [setKV, if_neg hk, countKey_cons, countKey_cons, ih]

theorem countKey_setKV_self {α : Type} (k : String) (v : α) (l : List (String × α)) :
    countKey k (setKV k v l) = if countKey k l = 0 then 1 else countKey k l := by
  induction l with
  | nil => simp [setKV, countKey, List.filter_cons]
  | cons kv rest ih =>
    obtain ⟨k', v'⟩ := kv
    by_cases hk : k' = k
    · subst hk
      rw [setKV, if_pos rfl, countKey_cons, countKey_cons]
      simp
    · rw [setKV, if_neg hk, countKey_cons, countKey_cons, ih]
      simp [hk]

theorem countKey_eq_zero_iff_lookup_none {α : Type} (k : String) (l : List (String × α)) :
    countKey k l = 0 ↔ lookupKV k l = none := by
  induction l with
  | nil => simp [countKey, lookupKV]
  | cons kv rest ih =>
    obtain ⟨k', v'⟩ := kv
    rw [countKey_cons, lookupKV]
    by_cases hk : k' = k
    · simp [hk]
    · simp [hk, ih]

/-- Strings: a string is never equal to itself extended past a `"."`
separator (used to show nested component names cannot clash with their
parent's name). -/
theorem ne_append_dot_append (n q : String) : n ≠ (n ++ ".") ++ q := by
  intro h
  have hl := congrArg String.length h
  simp only [String.length_append] at hl
  have : String.length "." = 1 := rfl
  omega

/-- The collision warning for a name differs from the warning for any
strict `"."`-extension of that name. -/
theorem schemaCollisionWarning_ne_ext (n q : String) :
    schemaCollisionWarning n ≠ schemaCollisionWarning ((n ++ ".") ++ q) := by
  intro h
  have hl := congrArg String.length h
  simp only [schemaCollisionWarning, String.length_append] at hl
  have : String.length "." = 1 := rfl
  omega

/-- State evolution bound: between `s` and `s'` only schema-store keys
that extend `pre` are touched, and every appended warning is the
collision warning of a key extending `pre`. -/
def preservesOutside (pre : String) (s s' : GenState) : Prop :=
  (∀ k, (∀ r, k ≠ pre ++ r) →
      lookupKV k s'.schemas = lookupKV k s.schemas ∧
      countKey k s'.schemas = countKey k s.schemas) ∧
  ∃ ws, s'.warnings = s.warnings ++ ws ∧ ∀ w ∈ ws, ∃ r, w = schemaCollisionWarning (pre ++ r)

theorem preservesOutside_refl (pre : String) (s : GenState) : preservesOutside pre s s :=
  ⟨fun _ _ => ⟨rfl, rfl⟩, [], by simp, by simp⟩

theorem preservesOutside_trans {pre : String} {s1 s2 s3 : GenState}
    (h1 : preservesOutside pre s1 s2) (h2 : preservesOutside pre s2 s3) :
    preservesOutside pre s1 s3 := by
  obtain ⟨hk1, ws1, hw1, hext1⟩ := h1
  obtain ⟨hk2, ws2, hw2, hext2⟩ := h2
  refine ⟨fun k hout => ?_, ws1 ++ ws2, by simp [hw2, hw1], ?_⟩
  · obtain ⟨ha, hb⟩ := hk1 k hout
    obtain ⟨hc, hd⟩ := hk2 k hout
    exact ⟨hc.trans ha, hd.trans hb⟩
  · intro w hw
    rcases List.mem_append.mp hw with h | h
    · exact hext1 w h
    · exact hext2 w h

theorem preservesOutside_weaken {pre q : String} {s s' : GenState}
    (h : preservesOutside (pre ++ q) s s') : preservesOutside pre s s' := by
  obtain ⟨hk, ws, hw, hext⟩ := h
  refine ⟨fun k hout => hk k (fun r => ?_), ws, hw, ?_⟩
  · rw [String.append_assoc]
    exact hout (q ++ r)
  · intro w hmem
    obtain ⟨r, hr⟩ := hext w hmem
    exact ⟨q ++ r, by rw [← String.append_assoc]; exact hr⟩

/-- `s ++ "" = s` for strings. -/
theorem str_append_empty (s : String) : s ++ "" = s := by
  apply String.ext
  simp [String.data_append]

/-- Preservation statement for `createSchemaComponentFromObject`: only
keys extending `schemeName` are touched, only collision warnings for
such keys are appended. -/
def PO1 (schemeName : String) (obj : List (String × Schema)) (customDefault : Option JVal)
    (s : GenState) : Prop :=
  preservesOutside schemeName s (createSchemaComponentFromObject schemeName obj customDefault s).2

/-- Preservation statement for `processProperties`: only keys extending
`schemeName ++ "."` are touched. -/
def PO2 (schemeName : String) (l : List (String × Schema)) (s : GenState) : Prop :=
  preservesOutside (schemeName ++ ".") s (processProperties schemeName l s).2.2

/-- Preservation statement for `createSchemaPartFromRule`. -/
def PO3 (nextSchemeName : String) (rule : Schema) (s : GenState) : Prop :=
  preservesOutside nextSchemeName s (createSchemaPartFromRule nextSchemeName rule s).2

/-- Preservation statement for `processMultiMembers`. -/
def PO4 (nextSchemeName : String) (i : Nat) (l : Option (List Schema)) (s : GenState) : Prop :=
  preservesOutside (nextSchemeName ++ ".") s (processMultiMembers nextSchemeName i l s).2.2

/-- Preservation statement for `processMultiList`. -/
def PO5 (nextSchemeName : String) (i : Nat) (l : List Schema) (s : GenState) : Prop :=
  preservesOutside (nextSchemeName ++ ".") s (processMultiList nextSchemeName i l s).2.2

/-- Nested component creation under `schemeName` touches only store keys
of the form `schemeName ++ "." ++ …` and appends only collision warnings
for such keys. -/
theorem processProperties_preserves (n : String) (l : List (String × Schema)) (s : GenState) :
    PO2 n l s := by
  refine processProperties.induct PO1 PO2 PO3 PO4 PO5 ?_ ?_ ?_ ?_ ?_ ?_ ?_ ?_ ?_ ?_ ?_ ?_ n l s
  · -- createSchemaComponentFromObject from processProperties
    intro n obj cd s h2
    have h1 : preservesOutside n s (processProperties n obj s).2.2 := preservesOutside_weaken h2
    unfold PO1
    simp only [createSchemaComponentFromObject]
    refine preservesOutside_trans h1 ?_
    constructor
    · intro k hout
      have hkn : k ≠ n := by
        have := hout ""
        rwa [str_append_empty] at this
      by_cases hc : (lookupKV n (processProperties n obj s).2.2.schemas).isSome <;>
        simp [hc, lookupKV_setKV_ne k n _ _ hkn, countKey_setKV_ne k n _ _ hkn]
    · by_cases hc : (lookupKV n (processProperties n obj s).2.2.schemas).isSome
      · exact ⟨[schemaCollisionWarning n], by simp [hc],
          by simp; exact ⟨"", by rw [str_append_empty]⟩⟩
      · exact ⟨[], by simp [hc], by simp⟩
  · -- processProperties nil
    intro n s
    unfold PO2
    simp only [processProperties]
    exact preservesOutside_refl _ _
  · -- processProperties cons
    intro n s f rule rest nsn c h3a h3b h2
    unfold PO2 at h2 ⊢
    unfold PO3 at h3b
    simp only [processProperties]
    exact preservesOutside_trans (preservesOutside_weaken h3b) h2
  · -- part: object branch
    intro n s it o a y r d ti de su dep rf fo ui mi ma ex eo edc esm edp props h1
    unfold PO1 at h1
    unfold PO3
    rw [createSchemaPartFromRule.eq_def]
    exact h1
  · -- part: array branch
    intro n s p o a y r d ti de su dep rf fo ui mi ma ex eo edc esm edp itemsSchema h3
    unfold PO3 at h3 ⊢
    rw [createSchemaPartFromRule.eq_def]
    exact h3
  · -- part: composition branch
    intro n s t p it o a y r d ti de su dep rf fo ui mi ma ex eo edc esm edp hcond ro ra hno hna
      h4o h4a h4a' h4y
    unfold PO4 at h4o h4a' h4y
    unfold PO3
    rw [createSchemaPartFromRule.eq_def]
    dsimp only
    split
    · next x props => exact (hno props rfl rfl).elim
    · next x itemsSchema => exact (hna itemsSchema rfl rfl).elim
    · rw [if_pos hcond]
      exact preservesOutside_weaken (preservesOutside_trans (preservesOutside_trans h4o h4a') h4y)
  · -- part: plain branch
    intro n s t p it o a y r d ti de su dep rf fo ui mi ma ex eo edc esm edp hcond hno hna
    unfold PO3
    rw [createSchemaPartFromRule.eq_def]
    dsimp only
    split
    · next x props => exact (hno props rfl rfl).elim
    · next x itemsSchema => exact (hna itemsSchema rfl rfl).elim
    · rw [if_neg hcond]
      exact preservesOutside_refl _ _
  · -- members none
    intro n i s
    unfold PO4
    simp only [processMultiMembers]
    exact preservesOutside_refl _ _
  · -- members some
    intro n i s members h5
    unfold PO5 at h5
    unfold PO4
    simp only [processMultiMembers]
    exact h5
  · -- multilist nil
    intro n i s
    unfold PO5
    simp only [processMultiList]
    exact preservesOutside_refl _ _
  · -- multilist cons, object member
    intro n i s member rest hobj c h3 h5
    unfold PO3 at h3
    unfold PO5 at h5 ⊢
    simp only [processMultiList, hobj, if_true]
    refine preservesOutside_trans ?_ h5
    exact @preservesOutside_weaken (n ++ ".") (toString i) s c.2 h3
  · -- multilist cons, non-object member
    intro n i s member rest hobj h5
    unfold PO5 at h5 ⊢
    simp only [processMultiList, hobj, if_false]
    exact h5

/-- Claim C7 (amended): registering a component under an already-registered
name overwrites the prior entry — the store afterwards holds exactly one
component under that name, namely the newly assembled object component —
and the call appends exactly one collision warning naming that name;
under a fresh name no warning naming that name is appended. (Warnings
naming nested component names `name.field…` may additionally be emitted
by object-typed fields; the original claim's "no warning at all for a
fresh name" is refuted separately.) -/
theorem registerComponent_overwrites_and_warns_per_name
    (schemeName : String) (obj : List (String × Schema)) (customDefault : Option JVal)
    (s : GenState) (hcount : countKey schemeName s.schemas ≤ 1) :
    countKey schemeName
        (createSchemaComponentFromObject schemeName obj customDefault s).2.schemas = 1 ∧
    lookupKV schemeName
        (createSchemaComponentFromObject schemeName obj customDefault s).2.schemas =
      some (Schema.mk
        { type := some "object"
          properties := some (processProperties schemeName obj s).1
          required := if (processProperties schemeName obj s).2.1.length > 0
                      then some (processProperties schemeName obj s).2.1 else none
          dflt := customDefault }) ∧
    ∃ ws, (createSchemaComponentFromObject schemeName obj customDefault s).2.warnings
            = s.warnings ++ ws ∧
      List.count (schemaCollisionWarning schemeName) ws =
        (if (lookupKV schemeName s.schemas).isSome then 1 else 0) := by
  have hps := processProperties_preserves schemeName obj s
  unfold PO2 at hps
  obtain ⟨hk, ws0, hw0, hext0⟩ := hps
  obtain ⟨hlook, hcnt⟩ := hk schemeName (ne_append_dot_append schemeName)
  have hws0 : schemaCollisionWarning schemeName ∉ ws0 := by
    intro hmem
    obtain ⟨r, hr⟩ := hext0 _ hmem
    exact schemaCollisionWarning_ne_ext schemeName r hr
  simp only [createSchemaComponentFromObject]
  by_cases hc : (lookupKV schemeName (processProperties schemeName obj s).2.2.schemas).isSome
  · simp only [hc, if_true]
    refine ⟨?_, lookupKV_setKV_self _ _ _,
      ws0 ++ [schemaCollisionWarning schemeName], ?_, ?_⟩
    · rw [countKey_setKV_self, hcnt]
      have h0 : countKey schemeName s.schemas ≠ 0 := by
        rw [Ne, countKey_eq_zero_iff_lookup_none]
        intro hnone
        rw [hlook, hnone] at hc
        simp at hc
      rw [if_neg h0]
      omega
    · simp [hw0]
    · have hs : (lookupKV schemeName s.schemas).isSome := by rw [← hlook]; exact hc
      rw [if_pos hs, List.count_append, List.count_eq_zero.mpr hws0]
      simp
  · simp only [hc, Bool.false_eq_true, if_false]
    refine ⟨?_, lookupKV_setKV_self _ _ _, ws0, ?_, ?_⟩
    · rw [countKey_setKV_self, hcnt]
      have h0 : countKey schemeName s.schemas = 0 := by
        rw [countKey_eq_zero_iff_lookup_none, ← hlook]
        exact Option.not_isSome_iff_eq_none.mp hc
      rw [if_pos h0]
    · simp [hw0]
    · have hs : ¬ (lookupKV schemeName s.schemas).isSome = true := by rw [← hlook]; exact hc
      rw [if_neg hs, List.count_eq_zero.mpr hws0]

/-- Witness for the amended C7: a concrete registration of
`users.create` with one mandatory and one optional field into an empty
store. -/
theorem registerComponent_overwrites_and_warns_per_name_witness :
    countKey "users.create"
        (createSchemaComponentFromObject "users.create"
          [("name", Schema.mk { type := some "string" }),
           ("age", Schema.mk { type := some "number", extOptional := some true })]
          none { schemas := [], warnings := [] }).2.schemas = 1 ∧
    lookupKV "users.create"
        (createSchemaComponentFromObject "users.create"
          [("name", Schema.mk { type := some "string" }),
           ("age", Schema.mk { type := some "number", extOptional := some true })]
          none { schemas := [], warnings := [] }).2.schemas =
      some (Schema.mk
        { type := some "object"
          properties := some (processProperties "users.create"
            [("name", Schema.mk { type := some "string" }),
             ("age", Schema.mk { type := some "number", extOptional := some true })]
            { schemas := [], warnings := [] }).1
          required := if (processProperties "users.create"
              [("name", Schema.mk { type := some "string" }),
               ("age", Schema.mk { type := some "number", extOptional := some true })]
              { schemas := [], warnings := [] }).2.1.length > 0
            then some (processProperties "users.create"
              [("name", Schema.mk { type := some "string" }),
               ("age", Schema.mk { type := some "number", extOptional := some true })]
              { schemas := [], warnings := [] }).2.1 else none
          dflt := none }) ∧
    ∃ ws, (createSchemaComponentFromObject "users.create"
            [("name", Schema.mk { type := some "string" }),
             ("age", Schema.mk { type := some "number", extOptional := some true })]
            none { schemas := [], warnings := [] }).2.warnings = [] ++ ws ∧
      List.count (schemaCollisionWarning "users.create") ws =
        (if (lookupKV "users.create" ([] : List (String × Schema))).isSome then 1 else 0) :=
  registerComponent_overwrites_and_warns_per_name "users.create"
    [("name", Schema.mk { type := some "string" }),
     ("age", Schema.mk { type := some "number", extOptional := some true })]
    none { schemas := [], warnings := [] } (by decide)

/-- Counterexample to C7 as stated: registering the fresh name `"A"`
(not present in the store) whose object-typed field `b` collides with a
pre-existing nested component `"A.b"` does emit a warning, contradicting
"registering under a fresh name emits no warning". -/
theorem registerComponent_fresh_name_warning_counterexample :
    lookupKV "A" ([("A.b", Schema.mk {})] : List (String × Schema)) = none ∧
    (createSchemaComponentFromObject "A"
        [("b", Schema.mk { type := some "object", properties := some [] })] none
        { schemas := [("A.b", Schema.mk {})], warnings := [] }).2.warnings ≠ [] := by
  constructor
  · rfl
  · simp [createSchemaComponentFromObject, processProperties, createSchemaPartFromRule,
      processMultiMembers, processMultiList, lookupKV, setKV, schemaCollisionWarning]

/-- Helper: the component stored by `_createSchemaComponentFromObject`
is afterwards found under its name (the final store write wins over any
nested registration). -/
theorem lookupKV_createSchemaComponentFromObject_self
    (n : String) (obj : List (String × Schema)) (cd : Option JVal) (s : GenState) :
    lookupKV n (createSchemaComponentFromObject n obj cd s).2.schemas =
      some (Schema.mk
        { type := some "object"
          properties := some (processProperties n obj s).1
          required := if (processProperties n obj s).2.1.length > 0
                      then some (processProperties n obj s).2.1 else none
          dflt := cd }) := by
  simp only [createSchemaComponentFromObject]
  by_cases hc : (lookupKV n (processProperties n obj s).2.2.schemas).isSome <;>
    simp [hc, lookupKV_setKV_self]

/-- Helper: the `$ref` returned by `_createSchemaComponentFromObject`. -/
theorem ref_createSchemaComponentFromObject
    (n : String) (obj : List (String × Schema)) (cd : Option JVal) (s : GenState) :
    (createSchemaComponentFromObject n obj cd s).1 =
      Schema.mk { ref := some ("#/components/schemas/" ++ n) } := by
  simp only [createSchemaComponentFromObject]

/-- Helper: the `required` list collected by
`_createSchemaComponentFromObject` is exactly the names of the fields
whose fragment's optional marker is not `true`, in field order. -/
theorem processProperties_required_spec (n : String) (l : List (String × Schema)) (s : GenState) :
    (processProperties n l s).2.1 =
      (l.filter (fun kv => kv.2.fields.extOptional ≠ some true)).map Prod.fst := by
  induction l generalizing s with
  | nil => simp [processProperties]
  | cons kv rest ih =>
    obtain ⟨f, rule⟩ := kv
    simp only [processProperties, List.filter_cons]
    by_cases h : rule.fields.extOptional = some true
    · simp [h, ih]
    · simp [h, ih]

/-- The fastest-validator schema slice that request-body creation
inspects: the `$$root === true` flag, and the rule entries interpreted
by the injected converter. Rule nodes stay abstract (`α`); the concrete
converter is a parameter, mirroring the `FastestValidatorConverter`
instance injected into `OpenApiGenerator`. -/
structure FVSchema (α : Type) where
  isRoot : Bool
  entries : List (String × α)

/-- The converter interface consumed by `createRequestBodyFromParams`
(`IConverter`): per-schema conversion to named fragments, and root-schema
conversion (which may produce no fragment). -/
structure Converter (α : Type) where
  getSchemaObjectFromSchema : FVSchema α → List (String × Schema)
  getSchemaObjectFromRootSchema : FVSchema α → Option Schema

/-- `OpenApiGenerator.createRequestBodyFromParams`
(OpenApiGenerator.ts:445-462): a `$$root === true` schema is converted
directly as a root schema; otherwise the converted rules minus the
excluded names (the converted fragments themselves are JS objects and
hence always truthy in the source's `&& rule` filter) are registered as
one component named after the action and a `$ref` is returned. -/
def createRequestBodyFromParams {α : Type} (conv : Converter α) (rootSchemeName : String)
    (obj : FVSchema α) (exclude : List String) (parentDefault : Option JVal) (s : GenState) :
    Option Schema × GenState :=
  if obj.isRoot then (conv.getSchemaObjectFromRootSchema obj, s)
  else
    let rootRules := conv.getSchemaObjectFromSchema obj
    let rules := rootRules.filter (fun kv => !(exclude.contains kv.1))
    let c := createSchemaComponentFromObject rootSchemeName rules parentDefault s
    (some c.1, c.2)

/-- JS `str.split(sep)` for a one-character separator, on char lists
(e.g. `"a//b" ↦ ["a", "", "b"]`, `"" ↦ [""]`). -/
def splitOnChar (c : Char) : List Char → List (List Char)
  | [] => [[]]
  | x :: xs =>
    let r := splitOnChar c xs
    if x = c then [] :: r
    else
      match r with
      | [] => [[x]]
      | y :: ys => (x :: y) :: ys

/-- JS `path.split('/')` followed by the source's empty-segment filter
(OpenApiGenerator.ts:428). -/
def refPathSegments (path : String) : List String :=
  ((splitOnChar '/' path.data).map (fun l => (⟨l⟩ : String))).filter (fun seg => seg ≠ "")

/-- The fixed section names of `this.components`
(OpenApiGenerator.ts:29-40). -/
def componentSectionNames : List String :=
  ["schemas", "responses", "parameters", "examples", "requestBodies", "headers",
   "securitySchemes", "links", "callbacks", "pathItems"]

/-- `OpenApiGenerator.getComponentByRef` (OpenApiGenerator.ts:427-443):
reject malformed paths (fewer than four non-empty segments, not rooted at
`#/components`, unknown section), then walk the remaining segments
through the component store. Only the `schemas` section is ever populated
by the functions under verification, and the generator only emits
depth-one references `#/components/schemas/<name>`, so walks into other
sections or deeper than one name resolve to nothing. -/
def getComponentByRef (s : GenState) (path : String) : Option Schema :=
  let pathSegments := refPathSegments path
  if pathSegments.length < 4 ∨ pathSegments.getD 0 "" ≠ "#" ∨
      pathSegments.getD 1 "" ≠ "components" ∨
      ¬ componentSectionNames.contains (pathSegments.getD 2 "") then none
  else
    match pathSegments.drop 2 with
    | "schemas" :: [name] => lookupKV name s.schemas
    | _ => none

/-- The request-body object assembled by `extractParameters`
(OpenApiGenerator.ts:312-319); `content` pairs each content type with the
(possibly absent) schema. -/
structure RequestBody where
  description : Option String := none
  summary : Option String := none
  required : Bool := false
  content : List (String × Option Schema) := []

/-- The body-extraction slice of `OpenApiGenerator.extractParameters`
(OpenApiGenerator.ts:278-320), for routes without a `requestBody`
override: no bound action is a fatal invariant violation; with no body
parameters no body is produced; otherwise the metas (carrying the
`$$root` flag) and the body parameters are combined, converted through
`createRequestBodyFromParams`, and the body's `required` flag is set iff
the schema is a reference whose resolved component has a non-empty
`required` list (resolution failure is fatal). -/
def extractBodyRequest {α : Type} (conv : Converter α) (action : Option String)
    (metasRoot : Bool) (bodyParameters : List (String × α)) (excluded : List String)
    (contentTypes : List String) (metaDescription metaSummary : Option String)
    (s : GenState) : Except String (Option RequestBody × GenState) :=
  match action with
  | none => .error "something is wrong"
  | some act =>
    if bodyParameters.length > 0 then
      let currentBodyParameters : FVSchema α := { isRoot := metasRoot, entries := bodyParameters }
      let c := createRequestBodyFromParams conv act currentBodyParameters excluded none s
      let requiredE : Except String Bool :=
        match c.1 with
        | some sch =>
          if isReferenceObject sch then
            match sch.fields.ref with
            | some refPath =>
              match getComponentByRef c.2 refPath with
              | none => .error ("fail to get schema from path " ++ refPath)
              | some schemaRef => .ok ((schemaRef.fields.required.getD []).length > 0)
            | none => .ok false
          else .ok false
        | none => .ok false
      match requiredE with
      | .error e => .error e
      | .ok req =>
        .ok (some { description := metaDescription, summary := metaSummary, required := req,
                    content := contentTypes.map (fun ct => (ct, c.1)) }, c.2)
    else .ok (none, s)

/-- Claim C8: for an ordinary route whose body fields are aggregated into
a generated component named after the bound action (no `$$root` schema,
at least one body parameter), body extraction succeeds and the emitted
request body's `required` flag is `true` iff the generated component's
required-field list is non-empty; that list consists exactly of the body
fields whose fragments lack the optional marker. The `refPathSegments`
hypothesis states that the action name contains no `/` (so the emitted
`$ref` resolves back to the stored component). -/
theorem bodyRequired_iff_component_required {α : Type} (conv : Converter α) (action : String)
    (bodyParameters : List (String × α)) (excluded : List String)
    (contentTypes : List String) (mdesc msum : Option String) (s : GenState)
    (hne : bodyParameters.length > 0)
    (hseg : refPathSegments ("#/components/schemas/" ++ action)
      = ["#", "components", "schemas", action]) :
    ∃ rb s',
      extractBodyRequest conv (some action) false bodyParameters excluded contentTypes
          mdesc msum s = .ok (some rb, s') ∧
      ((rb.required = true) ↔
        (processProperties action
          ((conv.getSchemaObjectFromSchema ⟨false, bodyParameters⟩).filter
            (fun kv => !(excluded.contains kv.1))) s).2.1 ≠ []) ∧
      (processProperties action
          ((conv.getSchemaObjectFromSchema ⟨false, bodyParameters⟩).filter
            (fun kv => !(excluded.contains kv.1))) s).2.1 =
        (((conv.getSchemaObjectFromSchema ⟨false, bodyParameters⟩).filter
            (fun kv => !(excluded.contains kv.1))).filter
          (fun kv => kv.2.fields.extOptional ≠ some true)).map Prod.fst := by
  have hp : ("#/components/schemas/" ++ action) ≠ "" := by
    intro h
    have hlen := congrArg String.length h
    rw [String.length_append] at hlen
    have h21 : ("#/components/schemas/").length = 21 := rfl
    have h0 : ("" : String).length = 0 := rfl
    omega
  have hrules :
      createRequestBodyFromParams conv action
        (⟨false, bodyParameters⟩ : FVSchema α) excluded none s =
      (some (createSchemaComponentFromObject action
          ((conv.getSchemaObjectFromSchema ⟨false, bodyParameters⟩).filter
            (fun kv => !(excluded.contains kv.1))) none s).1,
        (createSchemaComponentFromObject action
          ((conv.getSchemaObjectFromSchema ⟨false, bodyParameters⟩).filter
            (fun kv => !(excluded.contains kv.1))) none s).2) := by
    simp [createRequestBodyFromParams]
  have href := ref_createSchemaComponentFromObject action
    ((conv.getSchemaObjectFromSchema ⟨false, bodyParameters⟩).filter
      (fun kv => !(excluded.contains kv.1))) none s
  have hlook := lookupKV_createSchemaComponentFromObject_self action
    ((conv.getSchemaObjectFromSchema ⟨false, bodyParameters⟩).filter
      (fun kv => !(excluded.contains kv.1))) none s
  simp only [extractBodyRequest, if_pos hne, hrules, href]
  have hisref : isReferenceObject (Schema.mk { ref := some ("#/components/schemas/" ++ action) })
      = true := by
    simp [isReferenceObject, Schema.fields, hp]
  rw [hisref]
  simp only [Schema.fields, if_true]
  have hresolve : getComponentByRef
      (createSchemaComponentFromObject action
        ((conv.getSchemaObjectFromSchema ⟨false, bodyParameters⟩).filter
          (fun kv => !(excluded.contains kv.1))) none s).2
      ("#/components/schemas/" ++ action) =
      some (Schema.mk
        { type := some "object"
          properties := some (processProperties action
            ((conv.getSchemaObjectFromSchema ⟨false, bodyParameters⟩).filter
              (fun kv => !(excluded.contains kv.1))) s).1
          required := if (processProperties action
              ((conv.getSchemaObjectFromSchema ⟨false, bodyParameters⟩).filter
                (fun kv => !(excluded.contains kv.1))) s).2.1.length > 0
            then some (processProperties action
              ((conv.getSchemaObjectFromSchema ⟨false, bodyParameters⟩).filter
                (fun kv => !(excluded.contains kv.1))) s).2.1 else none
          dflt := none }) := by
    simp only [getComponentByRef, hseg]
    simp [componentSectionNames]
    simpa using hlook
  rw [hresolve]
  refine ⟨_, _, rfl, ?_, processProperties_required_spec _ _ _⟩
  by_cases hreq : (processProperties action
      ((conv.getSchemaObjectFromSchema ⟨false, bodyParameters⟩).filter
        (fun kv => !(excluded.contains kv.1))) s).2.1.length > 0
  · simp only [if_pos hreq, Schema.fields]
    simp only [Option.getD_some]
    constructor
    · intro _
      intro hnil
      rw [hnil] at hreq
      simp at hreq
    · intro _
      simpa using hreq
  · simp only [if_neg hreq, Schema.fields]
    simp only [Option.getD_none]
    constructor
    · intro hfalse
      simp at hfalse
    · intro hnil
      exfalso
      apply hnil
      cases hval : (processProperties action
        ((conv.getSchemaObjectFromSchema ⟨false, bodyParameters⟩).filter
          (fun kv => !(excluded.contains kv.1))) s).2.1 with
      | nil => rfl
      | cons a rest =>
        rw [hval] at hreq
        simp at hreq

/-- A concrete converter for the C8 witness: every rule entry becomes a
mandatory string fragment. -/
def c8WitnessConverter : Converter Unit :=
  { getSchemaObjectFromSchema :=
      fun sch => sch.entries.map (fun kv => (kv.1, Schema.mk { type := some "string" }))
    getSchemaObjectFromRootSchema := fun _ => none }

/-- Witness for C8 at a concrete route: action `users.create` with a
single mandatory body field `name`. -/
theorem bodyRequired_iff_component_required_witness :
    ∃ rb s',
      extractBodyRequest c8WitnessConverter (some "users.create") false [("name", ())] []
          ["application/json"] none none { schemas := [], warnings := [] } = .ok (some rb, s') ∧
      ((rb.required = true) ↔
        (processProperties "users.create"
          ((c8WitnessConverter.getSchemaObjectFromSchema ⟨false, [("name", ())]⟩).filter
            (fun kv => !(([] : List String).contains kv.1)))
          { schemas := [], warnings := [] }).2.1 ≠ []) ∧
      (processProperties "users.create"
          ((c8WitnessConverter.getSchemaObjectFromSchema ⟨false, [("name", ())]⟩).filter
            (fun kv => !(([] : List String).contains kv.1)))
          { schemas := [], warnings := [] }).2.1 =
        (((c8WitnessConverter.getSchemaObjectFromSchema ⟨false, [("name", ())]⟩).filter
            (fun kv => !(([] : List String).contains kv.1))).filter
          (fun kv => kv.2.fields.extOptional ≠ some true)).map Prod.fst :=
  bodyRequired_iff_component_required c8WitnessConverter "users.create" [("name", ())] []
    ["application/json"] none none { schemas := [], warnings := [] } (by decide) (by decide)

/-- Modelled from the spec: the body-parser → MIME-type map
(`BODY_PARSERS_CONTENT_TYPE` in the repository's `constants.ts`, not
among the given sources). The spec fixes only that body parsers map to
MIME types and that multipart uploads and raw streams have their own
content types; the exact strings are conventional. -/
def bodyParsersContentType (t : String) : Option (List String) :=
  if t = "multipart" then some ["multipart/form-data"]
  else if t = "stream" then some ["application/octet-stream"]
  else if t = "json" then some ["application/json"]
  else if t = "urlencoded" then some ["application/x-www-form-urlencoded"]
  else if t = "text" then some ["text/plain"]
  else none

/-- Modelled from the spec: the default multipart file-field name
(`DEFAULT_MULTI_PART_FIELD_NAME` in `constants.ts`, not among the given
sources; the spec says the file field has a configurable name with a
default). -/
def defaultMultiPartFieldName : String := "file"

/-- The alias fields read by `generateFileUploadBody`
(OpenApiGenerator.ts:351-409): the route type, the bound action name, the
action's rule schema, the alias-level and route-level busboy file-count
limits, and the service's configured multipart file-field name. -/
structure UploadAlias (α : Type) where
  type : Option String := none
  action : Option String := none
  params : Option (FVSchema α) := none
  aliasBusboyFilesLimit : Option Nat := none
  routeBusboyFilesLimit : Option Nat := none
  multiPartFileFieldName : Option String := none

/-- `OpenApiGenerator.generateFileUploadBody`
(OpenApiGenerator.ts:351-409): a stream route gets a single binary body;
a multipart route with a `$$root === true` rule schema is a fatal error;
otherwise the body is an `allOf` of the file-field object (single binary
when the files limit is exactly 1, else a binary array capped by the
limit) plus, when an action with a rule schema is bound, the component
generated from that schema. The content key is the first MIME type for
the route type (the source would fail on a type missing from the map;
only `multipart`/`stream` reach this function). -/
def generateFileUploadBody {α : Type} (conv : Converter α) (al : UploadAlias α)
    (excluded : List String) (s : GenState) : Except String (RequestBody × GenState) :=
  let typeBodyParser : Option (List String) :=
    match al.type with
    | some t => if t ≠ "" then bodyParsersContentType t else bodyParsersContentType "multipart"
    | none => bodyParsersContentType "multipart"
  let contentKey : String := (typeBodyParser.getD []).getD 0 ""
  if al.type = some "stream" then
    .ok ({ required := true,
           content := [(contentKey,
             some (Schema.mk { type := some "string", format := some "binary" }))] }, s)
  else
    if (al.params.map (fun p => p.isRoot)).getD false then
      .error "$$root parameters is not supported on multipart"
    else
      let filesLimit : Option Nat :=
        match al.aliasBusboyFilesLimit with
        | some v => some v
        | none => al.routeBusboyFilesLimit
      let fileField := al.multiPartFileFieldName.getD defaultMultiPartFieldName
      let binarySchema := Schema.mk { type := some "string", format := some "binary" }
      let fileProp : Schema :=
        if filesLimit = some 1 then binarySchema
        else Schema.mk { type := some "array", items := some binarySchema, maxItems := filesLimit }
      let fileObject := Schema.mk
        { type := some "object", properties := some [(fileField, fileProp)],
          required := some [fileField] }
      match al.action, al.params with
      | some act, some params =>
        if act ≠ "" then
          let c := createRequestBodyFromParams conv act params excluded none s
          match c.1 with
          | some ps =>
            .ok ({ required := true,
                   content := [(contentKey, some (Schema.mk { allOf := some [fileObject, ps] }))] },
                 c.2)
          | none =>
            .ok ({ required := true,
                   content := [(contentKey, some (Schema.mk { allOf := some [fileObject] }))] },
                 c.2)
        else
          .ok ({ required := true,
                 content := [(contentKey, some (Schema.mk { allOf := some [fileObject] }))] }, s)
      | _, _ =>
        .ok ({ required := true,
               content := [(contentKey, some (Schema.mk { allOf := some [fileObject] }))] }, s)

/-- Claim C3: a multipart route whose action declares a root-level
(`$$root`) rule schema makes generation throw the fatal error; a
multipart route whose action declares an object-shaped (non-root) rule
schema succeeds, and the produced body schema is an `allOf` composition
of the file-field object and a reference to the generated component
(named after the action) holding the action schema's fields, which is
stored in the component store. -/
theorem generateFileUploadBody_root_fatal_object_composes {α : Type} (conv : Converter α)
    (al : UploadAlias α) (excluded : List String) (s : GenState) (p : FVSchema α)
    (htype : al.type = some "multipart") (hparams : al.params = some p) :
    (p.isRoot = true →
      generateFileUploadBody conv al excluded s =
        .error "$$root parameters is not supported on multipart") ∧
    (p.isRoot = false → ∀ act, al.action = some act → act ≠ "" →
      ∃ fileProp : Schema,
        generateFileUploadBody conv al excluded s =
          .ok ({ required := true,
                 content := [("multipart/form-data",
                   some (Schema.mk {
                     allOf := some [
                       Schema.mk {
                         type := some "object",
                         properties := some [(al.multiPartFileFieldName.getD defaultMultiPartFieldName, fileProp)],
                         required := some [al.multiPartFileFieldName.getD defaultMultiPartFieldName] },
                       Schema.mk { ref := some ("#/components/schemas/" ++ act) }] }))] },
               (createSchemaComponentFromObject act
                 ((conv.getSchemaObjectFromSchema p).filter
                   (fun kv => !(excluded.contains kv.1))) none s).2) ∧
        lookupKV act
            (createSchemaComponentFromObject act
              ((conv.getSchemaObjectFromSchema p).filter
                (fun kv => !(excluded.contains kv.1))) none s).2.schemas =
          some (Schema.mk
            { type := some "object"
              properties := some (processProperties act
                ((conv.getSchemaObjectFromSchema p).filter
                  (fun kv => !(excluded.contains kv.1))) s).1
              required := if (processProperties act
                  ((conv.getSchemaObjectFromSchema p).filter
                    (fun kv => !(excluded.contains kv.1))) s).2.1.length > 0
                then some (processProperties act
                  ((conv.getSchemaObjectFromSchema p).filter
                    (fun kv => !(excluded.contains kv.1))) s).2.1 else none
              dflt := none })) := by
  constructor
  · intro hroot
    simp [generateFileUploadBody, htype, hparams, hroot]
  · intro hroot act hact hactne
    refine ⟨if (match al.aliasBusboyFilesLimit with | some v => some v | none => al.routeBusboyFilesLimit) = some 1 then Schema.mk { type := some "string", format := some "binary" } else Schema.mk { type := some "array", items := some (Schema.mk { type := some "string", format := some "binary" }), maxItems := (match al.aliasBusboyFilesLimit with | some v => some v | none => al.routeBusboyFilesLimit) }, ?_, ?_⟩
    · have href := ref_createSchemaComponentFromObject act
        ((conv.getSchemaObjectFromSchema p).filter (fun kv => !(excluded.contains kv.1))) none s
      simp only [generateFileUploadBody, htype, hparams, hact, hroot,
        createRequestBodyFromParams, href]
      simp [bodyParsersContentType, hactne, hroot]
    · exact lookupKV_createSchemaComponentFromObject_self act
        ((conv.getSchemaObjectFromSchema p).filter (fun kv => !(excluded.contains kv.1))) none s

/-- A concrete converter for the C3 witness: every rule entry becomes a
mandatory string fragment. -/
def c3WitnessConverter : Converter Unit :=
  { getSchemaObjectFromSchema :=
      fun sch => sch.entries.map (fun kv => (kv.1, Schema.mk { type := some "string" }))
    getSchemaObjectFromRootSchema := fun _ => none }

/-- Witness for C3: a multipart route with a `$$root` schema errors; a
multipart route bound to `files.upload` with an object schema produces
the `allOf` composition and stores the component. -/
theorem generateFileUploadBody_root_fatal_object_composes_witness :
    (generateFileUploadBody c3WitnessConverter
        { type := some "multipart", action := some "files.upload", params := some ⟨true, []⟩ }
        [] { schemas := [], warnings := [] } =
      .error "$$root parameters is not supported on multipart") ∧
    (∃ fileProp : Schema,
      generateFileUploadBody c3WitnessConverter
          { type := some "multipart", action := some "files.upload",
            params := some ⟨false, [("name", ())]⟩ }
          [] { schemas := [], warnings := [] } =
        .ok ({ required := true,
               content := [("multipart/form-data",
                 some (Schema.mk {
                   allOf := some [
                     Schema.mk {
                       type := some "object",
                       properties := some [("file", fileProp)],
                       required := some ["file"] },
                     Schema.mk { ref := some ("#/components/schemas/" ++ "files.upload") }] }))] },
             (createSchemaComponentFromObject "files.upload"
               ((c3WitnessConverter.getSchemaObjectFromSchema ⟨false, [("name", ())]⟩).filter
                 (fun kv => !(([] : List String).contains kv.1))) none
               { schemas := [], warnings := [] }).2) ∧
      lookupKV "files.upload"
          (createSchemaComponentFromObject "files.upload"
            ((c3WitnessConverter.getSchemaObjectFromSchema ⟨false, [("name", ())]⟩).filter
              (fun kv => !(([] : List String).contains kv.1))) none
            { schemas := [], warnings := [] }).2.schemas =
        some (Schema.mk
          { type := some "object"
            properties := some (processProperties "files.upload"
              ((c3WitnessConverter.getSchemaObjectFromSchema ⟨false, [("name", ())]⟩).filter
                (fun kv => !(([] : List String).contains kv.1)))
              { schemas := [], warnings := [] }).1
            required := if (processProperties "files.upload"
                ((c3WitnessConverter.getSchemaObjectFromSchema ⟨false, [("name", ())]⟩).filter
                  (fun kv => !(([] : List String).contains kv.1)))
                { schemas := [], warnings := [] }).2.1.length > 0
              then some (processProperties "files.upload"
                ((c3WitnessConverter.getSchemaObjectFromSchema ⟨false, [("name", ())]⟩).filter
                  (fun kv => !(([] : List String).contains kv.1)))
                { schemas := [], warnings := [] }).2.1 else none
            dflt := none })) :=
  ⟨(generateFileUploadBody_root_fatal_object_composes c3WitnessConverter
      { type := some "multipart", action := some "files.upload", params := some ⟨true, []⟩ }
      [] { schemas := [], warnings := [] } ⟨true, []⟩ rfl rfl).1 rfl,
   (generateFileUploadBody_root_fatal_object_composes c3WitnessConverter
      { type := some "multipart", action := some "files.upload",
        params := some ⟨false, [("name", ())]⟩ }
      [] { schemas := [], warnings := [] } ⟨false, [("name", ())]⟩ rfl rfl).2 rfl
      "files.upload" rfl (by decide)⟩

/-- An OpenAPI parameter object: the fields the parameter extractor
reads and writes. `inLoc` models the `in` key (`in` is reserved in
Lean); every field other than `name` may be absent. -/
structure ParameterObject where
  name : String := ""
  inLoc : Option String := none
  required : Option Bool := none
  schema : Option Schema := none
  style : Option String := none
  explode : Option Bool := none

/-- `\w` of the source's placeholder pattern `/{(\w+)}/g`
(OpenApiGenerator.ts:470): ASCII letters, digits and underscore. -/
def isWordChar (c : Char) : Bool :=
  ('a' ≤ c && c ≤ 'z') || ('A' ≤ c && c ≤ 'Z') || ('0' ≤ c && c ≤ '9') || c = '_'

/-- Modelled from the spec: the global-match helper `matchAll` lives in
`commons.ts` (not among the given sources); per the spec, parameter
extraction derives "one required string parameter per `{name}`-style
placeholder found in the URL template, in order of appearance". This
scanner yields the capture of each successive match of `/{(\w+)}/g`:
seeing `{`, it accumulates word characters and emits them at a closing
`}` (a non-word, non-brace character or an empty capture aborts the
candidate; a second `{` restarts it). -/
def extractNamesGo : Option (List Char) → List Char → List String
  | _, [] => []
  | none, c :: rest =>
    if c = '{' then extractNamesGo (some []) rest else extractNamesGo none rest
  | some acc, c :: rest =>
    if isWordChar c then extractNamesGo (some (acc ++ [c])) rest
    else if c = '}' then
      if acc ≠ [] then (⟨acc⟩ : String) :: extractNamesGo none rest
      else extractNamesGo none rest
    else if c = '{' then extractNamesGo (some []) rest
    else extractNamesGo none rest

/-- `OpenApiGenerator.extractParamsFromUrl` (OpenApiGenerator.ts:469-476):
one required, string-typed path parameter per `{name}` placeholder, in
order of appearance. -/
def extractParamsFromUrl (url : String) : List ParameterObject :=
  (extractNamesGo none url.data).map (fun n =>
    { name := n, inLoc := some "path", required := some true,
      schema := some (Schema.mk { type := some "string" }) })

/-- The path-parameter head of `OpenApiGenerator.extractParameters`
(OpenApiGenerator.ts:211-216): explicit overrides are spread with
`in: 'path'` (and nothing else changed); without overrides the
placeholders of the URL template are used. (The later query-parameter
pass, lines 260-271, can further modify a path parameter only when the
bound action's schema declares a field of the same name.) -/
def extractPathParameters (pathParamOverrides : Option (List ParameterObject)) (path : String) :
    List ParameterObject :=
  match pathParamOverrides with
  | some l => l.map (fun param => { param with inLoc := some "path" })
  | none => extractParamsFromUrl path

/-- Claim C5 (amended): with explicit path-parameter overrides, each
override is used verbatim except that it is placed in `"path"` — its
`required` flag is whatever the override declares, not forced to `true`;
without overrides, exactly one required string-typed path parameter is
produced per `{name}` placeholder, in order of appearance. -/
theorem extractPathParameters_spec (overrides : List ParameterObject) (path : String) :
    extractPathParameters (some overrides) path
      = overrides.map (fun p => { p with inLoc := some "path" }) ∧
    (∀ p ∈ extractPathParameters none path,
      p.inLoc = some "path" ∧ p.required = some true ∧
      p.schema = some (Schema.mk { type := some "string" })) ∧
    (extractPathParameters none path).map (fun p => p.name) = extractNamesGo none path.data := by
  refine ⟨rfl, ?_, ?_⟩
  · intro p hp
    simp only [extractPathParameters, extractParamsFromUrl, List.mem_map] at hp
    obtain ⟨n, _, rfl⟩ := hp
    exact ⟨rfl, rfl, rfl⟩
  · simp only [extractPathParameters, extractParamsFromUrl, List.map_map]
    show (extractNamesGo none path.data).map (fun n => n) = extractNamesGo none path.data
    exact List.map_id _

/-- Witness for the amended C5 at `/users/{id}`: the override branch
keeps the override's (absent) `required` flag, the placeholder branch
yields the single required string parameter `id`. -/
theorem extractPathParameters_spec_witness :
    extractPathParameters (some [{ name := "id", required := some false }]) "/users/{id}"
      = ([{ name := "id", required := some false }] : List ParameterObject).map
          (fun p => { p with inLoc := some "path" }) ∧
    (∀ p ∈ extractPathParameters none "/users/{id}",
      p.inLoc = some "path" ∧ p.required = some true ∧
      p.schema = some (Schema.mk { type := some "string" })) ∧
    (extractPathParameters none "/users/{id}").map (fun p => p.name)
      = extractNamesGo none "/users/{id}".data :=
  extractPathParameters_spec [{ name := "id", required := some false }] "/users/{id}"

/-- Counterexample to C5 as stated: an override `{name := "id"}` (no
`required` flag) is placed in `"path"` but is not typed as required —
the produced parameter differs from the claimed required-typed one. -/
theorem extractPathParameters_override_not_required_counterexample :
    extractPathParameters (some [{ name := "id" }]) "/users/{id}"
      = [{ name := "id", inLoc := some "path" }] ∧
    ¬ (({ name := "id", inLoc := some "path" } : ParameterObject) =
      { name := "id", inLoc := some "path", required := some true }) := by
  constructor
  · rfl
  · intro h
    have := congrArg ParameterObject.required h
    simp at this

/-- JS truthiness of a possibly-absent number (`if (rule.length)`):
false for an absent and for a zero value. -/
def jsTruthyNat : Option Nat → Bool
  | some n => n ≠ 0
  | none => false

/-- The array-rule fields read by the array mapper
(FastestValidatorConverter.ts:149-168): the item rule (abstract, handed
to the injected conversion function together with the rule's `enum`),
the default, the uniqueness flag, and the exact/min/max counts. A rule
value is a JS object or a non-empty type name, hence truthy whenever
present. -/
structure RuleArray (α : Type) where
  items : Option α := none
  enum : Option (List JVal) := none
  dflt : Option JVal := none
  unique : Option Bool := none
  length : Option Nat := none
  min : Option Nat := none
  max : Option Nat := none

/-- The `array` mapper of `getFastestValidatorMappers`
(FastestValidatorConverter.ts:149-169), parametrised — like the source
factory — by the rule-conversion function it closes over
(`getSchemaObjectFromRule`): items come from converting the item rule
(`?? {}` when absent or unconvertible), `examples`/`default`/`unique`
pass through, and `if (rule.length)` (JS-truthy, so false at zero)
makes both `minItems` and `maxItems` the exact length, else they come
from `rule.min`/`rule.max`. -/
def arrayMapper {α : Type} (convRule : α → Option (List JVal) → Option Schema)
    (rule : RuleArray α) : Schema :=
  let itemsSchema : Schema :=
    (match rule.items with
      | some it => convRule it rule.enum
      | none => none).getD (Schema.mk {})
  let schema : Schema := Schema.mk
    { type := some "array"
      examples := (match rule.dflt with
        | some d => if jsTruthy d then some [d] else none
        | none => none)
      uniqueItems := rule.unique
      dflt := rule.dflt
      items := some itemsSchema }
  if jsTruthyNat rule.length then
    Schema.mk { schema.fields with maxItems := rule.length, minItems := rule.length }
  else
    Schema.mk { schema.fields with maxItems := rule.max, minItems := rule.min }

/-- Claim C9 (amended): the converted array fragment takes its items
from converting the item rule and passes the uniqueness flag through;
a *non-zero* exact-length constraint sets both `minItems` and
`maxItems` to that length, overriding the independent min and max
counts; with no exact length — or with the JS-falsy exact length `0` —
`minItems`/`maxItems` come from the rule's min and max. -/
theorem arrayMapper_spec {α : Type} (convRule : α → Option (List JVal) → Option Schema)
    (rule : RuleArray α) :
    (arrayMapper convRule rule).fields.items
      = some ((match rule.items with
          | some it => convRule it rule.enum
          | none => none).getD (Schema.mk {})) ∧
    (arrayMapper convRule rule).fields.uniqueItems = rule.unique ∧
    (arrayMapper convRule rule).fields.type = some "array" ∧
    (∀ n, rule.length = some n → n ≠ 0 →
      (arrayMapper convRule rule).fields.minItems = some n ∧
      (arrayMapper convRule rule).fields.maxItems = some n) ∧
    (rule.length = none ∨ rule.length = some 0 →
      (arrayMapper convRule rule).fields.minItems = rule.min ∧
      (arrayMapper convRule rule).fields.maxItems = rule.max) := by
  by_cases hl : jsTruthyNat rule.length
  · refine ⟨by simp [arrayMapper, hl, Schema.fields], by simp [arrayMapper, hl, Schema.fields],
      by simp [arrayMapper, hl, Schema.fields], ?_, ?_⟩
    · intro n hn hn0
      simp [arrayMapper, Schema.fields, hn, jsTruthyNat, hn0]
    · intro hcase
      exfalso
      rcases hcase with h | h <;> simp [jsTruthyNat, h] at hl
  · refine ⟨by simp [arrayMapper, hl, Schema.fields], by simp [arrayMapper, hl, Schema.fields],
      by simp [arrayMapper, hl, Schema.fields], ?_, ?_⟩
    · intro n hn hn0
      exfalso
      rw [hn] at hl
      simp [jsTruthyNat] at hl
      exact hn0 hl
    · intro _
      simp [arrayMapper, hl, Schema.fields]

/-- The conversion function of the C9 witness (no convertible items). -/
def c9conv : Unit → Option (List JVal) → Option Schema := fun _ _ => none

/-- The C9 witness rule: item rule present, unique flag set, exact
length 3 next to min 1 and max 5. -/
def c9rule : RuleArray Unit :=
  { items := some (), unique := some true, length := some 3, min := some 1, max := some 5 }

/-- Witness for the amended C9 at a concrete rule: the non-zero exact
length 3 overrides min 1 / max 5, items and uniqueness pass through. -/
theorem arrayMapper_spec_witness :
    (arrayMapper c9conv c9rule).fields.items = some (Schema.mk {}) ∧
    (arrayMapper c9conv c9rule).fields.uniqueItems = some true ∧
    (arrayMapper c9conv c9rule).fields.type = some "array" ∧
    (∀ n, c9rule.length = some n → n ≠ 0 →
      (arrayMapper c9conv c9rule).fields.minItems = some n ∧
      (arrayMapper c9conv c9rule).fields.maxItems = some n) ∧
    (c9rule.length = none ∨ c9rule.length = some 0 →
      (arrayMapper c9conv c9rule).fields.minItems = some 1 ∧
      (arrayMapper c9conv c9rule).fields.maxItems = some 5) :=
  arrayMapper_spec c9conv c9rule

/-- Counterexample to C9 as stated: with the exact-length constraint set
to `0` (JS-falsy) and independent min 1 / max 2, the fragment's
`minItems`/`maxItems` are 1 and 2, not the exact length 0 the claim
demands. -/
theorem arrayMapper_zero_length_counterexample :
    ((arrayMapper (fun (_ : Unit) (_ : Option (List JVal)) => none)
        { length := some 0, min := some 1, max := some 2 }).fields.minItems = some 1) ∧
    ((arrayMapper (fun (_ : Unit) (_ : Option (List JVal)) => none)
        { length := some 0, min := some 1, max := some 2 }).fields.maxItems = some 2) ∧
    (some 1 ≠ (some 0 : Option Nat) ∧ some 2 ≠ (some 0 : Option Nat)) :=
  ⟨rfl, rfl, by decide⟩

theorem lookupKV_append {α : Type} (n : String) (l1 l2 : List (String × α)) :
    lookupKV n (l1 ++ l2) = (lookupKV n l1).or (lookupKV n l2) := by
  induction l1 with
  | nil => simp [lookupKV]
  | cons kv rest ih =>
    obtain ⟨k, v⟩ := kv
    by_cases h : k = n <;> simp [lookupKV, h, ih]

theorem lookupKV_map_values {α β : Type} (n : String) (l : List (String × α))
    (h : String → α → β) :
    lookupKV n (l.map (fun kv => (kv.1, h kv.1 kv.2))) = (lookupKV n l).map (h n) := by
  induction l with
  | nil => simp [lookupKV]
  | cons kv rest ih =>
    obtain ⟨k, v⟩ := kv
    by_cases hk : k = n
    · subst hk
      simp [lookupKV]
    · simp [lookupKV, hk, ih]

theorem lookupKV_filter_of_key_kept {α : Type} (n : String) (l : List (String × α))
    (p : String × α → Bool) (hkeep : ∀ v, p (n, v) = true) :
    lookupKV n (l.filter p) = lookupKV n l := by
  induction l with
  | nil => simp
  | cons kv rest ih =>
    obtain ⟨k, v⟩ := kv
    by_cases hk : k = n
    · subst hk
      simp [List.filter_cons, hkeep v, lookupKV, ih]
    · cases hp : p (k, v) <;> simp [List.filter_cons, hp, lookupKV, hk, ih]

/-- The value a JS spread `{...a, ...b}` associates with a key: `b`'s
entry when `b` has the key, else `a`'s. -/
theorem lookupKV_spreadKV {α : Type} (n : String) (a b : List (String × α)) :
    lookupKV n (spreadKV a b) = (lookupKV n b).or (lookupKV n a) := by
  unfold spreadKV
  rw [lookupKV_append]
  have hmap := lookupKV_map_values n a (fun k v => (lookupKV k b).getD v)
  rw [hmap]
  cases ha : lookupKV n a with
  | some va => cases hb : lookupKV n b <;> simp [hb]
  | none =>
    have hfilter := lookupKV_filter_of_key_kept n b
      (fun kv => (lookupKV kv.1 a).isNone) (fun v => by simp [ha])
    simp [hfilter]

/-- `OpenApiGenerator.mergeComponents` (OpenApiGenerator.ts:192-208): a
reduce over `c2`'s sections starting from `{...c1}`; a section of `c2`
with no keys is skipped, otherwise the accumulator's section is replaced
by the spread `{...c1[key], ...c2[key]}`. -/
def mergeComponents (c1 c2 : List (String × List (String × JVal))) :
    List (String × List (String × JVal)) :=
  c2.foldl
    (fun acc kv =>
      if kv.2.length = 0 then acc
      else setKV kv.1 (spreadKV ((lookupKV kv.1 c1).getD []) kv.2) acc)
    c1

theorem lookupKV_eq_none_of_not_mem {α : Type} (n : String) (l : List (String × α))
    (h : n ∉ l.map Prod.fst) : lookupKV n l = none := by
  induction l with
  | nil => rfl
  | cons kv rest ih =>
    obtain ⟨k, v⟩ := kv
    simp only [List.map_cons, List.mem_cons] at h
    push_neg at h
    simp [lookupKV, Ne.symm h.1, ih h.2]

theorem mergeComponents_foldl_lookup (c1 : List (String × List (String × JVal))) :
    ∀ (c2 acc : List (String × List (String × JVal))) (k : String),
      (c2.map Prod.fst).Nodup →
      lookupKV k (c2.foldl
          (fun acc kv =>
            if kv.2.length = 0 then acc
            else setKV kv.1 (spreadKV ((lookupKV kv.1 c1).getD []) kv.2) acc)
          acc) =
        (match lookupKV k c2 with
         | some sec =>
            if sec.length = 0 then lookupKV k acc
            else some (spreadKV ((lookupKV k c1).getD []) sec)
         | none => lookupKV k acc) := by
  intro c2
  induction c2 with
  | nil => intro acc k _; simp [lookupKV]
  | cons kv rest ih =>
    intro acc k hnodup
    obtain ⟨k', sec'⟩ := kv
    simp only [List.map_cons, List.nodup_cons] at hnodup
    obtain ⟨hk'notin, hrest⟩ := hnodup
    rw [List.foldl_cons, ih _ k hrest]
    by_cases heq : k' = k
    · subst heq
      have hnone : lookupKV k' rest = none := lookupKV_eq_none_of_not_mem k' rest hk'notin
      rw [hnone]
      simp only [lookupKV, if_pos rfl]
      by_cases hlen : sec'.length = 0
      · simp [hlen]
      · simp [hlen, lookupKV_setKV_self]
    · simp only [lookupKV, if_neg heq]
      cases hr : lookupKV k rest with
      | some sec =>
        by_cases hlen' : sec'.length = 0
        · simp [hlen']
        · simp [hlen', lookupKV_setKV_ne k k' _ acc (fun hh => heq hh.symm)]
      | none =>
        by_cases hlen' : sec'.length = 0
        · simp [hlen']
        · simp [hlen', lookupKV_setKV_ne k k' _ acc (fun hh => heq hh.symm)]

/-- Claim C1 (amended): when the accumulated component store is merged
into the document's components at the end of `generate()`
(`mergeComponents(document.components, this.components)`), for every
component name present in both the *newly generated* entry is kept and
the caller-supplied document's entry with the same name is discarded
(generated entries take precedence); names present only in the document
survive, and generated sections with no keys leave the document's section
untouched. -/
theorem mergeComponents_generated_entries_take_precedence
    (docComponents genComponents : List (String × List (String × JVal)))
    (hnodup : (genComponents.map Prod.fst).Nodup) (k n : String) :
    (∀ sec, lookupKV k genComponents = some sec → sec ≠ [] →
      lookupKV k (mergeComponents docComponents genComponents)
        = some (spreadKV ((lookupKV k docComponents).getD []) sec) ∧
      (∀ vGen, lookupKV n sec = some vGen →
        lookupKV n (spreadKV ((lookupKV k docComponents).getD []) sec) = some vGen) ∧
      (lookupKV n sec = none →
        lookupKV n (spreadKV ((lookupKV k docComponents).getD []) sec)
          = lookupKV n ((lookupKV k docComponents).getD []))) ∧
    (lookupKV k genComponents = none →
      lookupKV k (mergeComponents docComponents genComponents) = lookupKV k docComponents) ∧
    (lookupKV k genComponents = some [] →
      lookupKV k (mergeComponents docComponents genComponents) = lookupKV k docComponents) := by
  have hfold := mergeComponents_foldl_lookup docComponents genComponents docComponents k hnodup
  refine ⟨?_, ?_, ?_⟩
  · intro sec hsec hne
    have hlen : ¬ sec.length = 0 := by simpa using hne
    rw [mergeComponents, hfold, hsec]
    refine ⟨by simp [hlen], ?_, ?_⟩
    · intro vGen hvGen
      rw [lookupKV_spreadKV, hvGen]
      rfl
    · intro hnone
      rw [lookupKV_spreadKV, hnone]
      rfl
  · intro hnone
    rw [mergeComponents, hfold, hnone]
  · intro hempty
    rw [mergeComponents, hfold, hempty]
    simp

/-- Witness for the amended C1: the generated store carries
`schemas.A`, the document carries a different `schemas.A` and its own
`schemas.B`; after the merge `A` is the generated one and `B` survives. -/
theorem mergeComponents_generated_entries_take_precedence_witness :
    (∀ sec, lookupKV "schemas"
        [("schemas", [("A", JVal.str "fromGenerator")])] = some sec → sec ≠ [] →
      lookupKV "schemas" (mergeComponents
          [("schemas", [("A", JVal.str "fromDocument"), ("B", JVal.str "docOnly")])]
          [("schemas", [("A", JVal.str "fromGenerator")])])
        = some (spreadKV ((lookupKV "schemas"
            [("schemas", [("A", JVal.str "fromDocument"), ("B", JVal.str "docOnly")])]).getD [])
            sec) ∧
      (∀ vGen, lookupKV "A" sec = some vGen →
        lookupKV "A" (spreadKV ((lookupKV "schemas"
            [("schemas", [("A", JVal.str "fromDocument"), ("B", JVal.str "docOnly")])]).getD [])
            sec) = some vGen) ∧
      (lookupKV "A" sec = none →
        lookupKV "A" (spreadKV ((lookupKV "schemas"
            [("schemas", [("A", JVal.str "fromDocument"), ("B", JVal.str "docOnly")])]).getD [])
            sec)
          = lookupKV "A" ((lookupKV "schemas"
              [("schemas", [("A", JVal.str "fromDocument"), ("B", JVal.str "docOnly")])]).getD []))) ∧
    (lookupKV "schemas" [("schemas", [("A", JVal.str "fromGenerator")])] = none →
      lookupKV "schemas" (mergeComponents
          [("schemas", [("A", JVal.str "fromDocument"), ("B", JVal.str "docOnly")])]
          [("schemas", [("A", JVal.str "fromGenerator")])])
        = lookupKV "schemas"
            [("schemas", [("A", JVal.str "fromDocument"), ("B", JVal.str "docOnly")])]) ∧
    (lookupKV "schemas" [("schemas", [("A", JVal.str "fromGenerator")])] = some [] →
      lookupKV "schemas" (mergeComponents
          [("schemas", [("A", JVal.str "fromDocument"), ("B", JVal.str "docOnly")])]
          [("schemas", [("A", JVal.str "fromGenerator")])])
        = lookupKV "schemas"
            [("schemas", [("A", JVal.str "fromDocument"), ("B", JVal.str "docOnly")])]) :=
  mergeComponents_generated_entries_take_precedence
    [("schemas", [("A", JVal.str "fromDocument"), ("B", JVal.str "docOnly")])]
    [("schemas", [("A", JVal.str "fromGenerator")])]
    (by simp) "schemas" "A"

/-- Counterexample to C1 as stated: a name present in both the document
components and the generated store ends up with the generated value, not
the document's — document-level entries do not take precedence. -/
theorem mergeComponents_document_loses_counterexample :
    lookupKV "A" ((lookupKV "schemas" (mergeComponents
        [("schemas", [("A", JVal.str "fromDocument")])]
        [("schemas", [("A", JVal.str "fromGenerator")])])).getD [])
      = some (JVal.str "fromGenerator") ∧
    JVal.str "fromGenerator" ≠ JVal.str "fromDocument" := by
  constructor
  · rfl
  · intro h
    have := congrArg (fun v => match v with | JVal.str s => s | _ => "") h
    simp at this

/-- A server object (`OA3_1.ServerObject`): URL plus a description field
so that operations can differ in more than the URL. -/
structure Server where
  url : String
  description : Option String := none
deriving DecidableEq

/-- The operation fields the duplicate-route branch of `generate`
touches: the server list it may extend, plus a summary standing for all
the other operation content (which that branch never inspects). -/
structure Operation where
  summary : Option String := none
  servers : List Server := []
deriving DecidableEq

/-- `OpenApiGenerator.addServerToDocument` (OpenApiGenerator.ts:182-190):
append the server to the document's list unless a server with the same
URL is already there. -/
def addServerToDocument (docServers : List Server) (server : Server) : List Server :=
  if docServers.any (fun srv => srv.url = server.url) then docServers
  else docServers ++ [server]

/-- The duplicate warning of `generate` (OpenApiGenerator.ts:113-115). -/
def dupWarning (method path : String) (cachedAction : Option String) : String :=
  method.toUpper ++ " " ++ path ++ " is already register by action "
    ++ cachedAction.getD "<unamedAction>" ++ " skip"

/-- The `if (currentMethod)` branch of `generate`
(OpenApiGenerator.ts:100-117): when the existing operation's server list
is non-empty, the later route's service declares a server whose URL is
non-empty (JS truthiness) and not yet in that list, the server is pushed
onto the operation and (deduplicated by URL) onto the document's list,
with no warning; in every other case a warning naming the caching
action is logged. The later route is skipped (`return`) either way.
Returns (operation, document servers, emitted warnings). -/
def handleExistingMethod (currentMethod : Operation) (aliasServer : Option Server)
    (docServers : List Server) (cachedAction : Option String) (method path : String) :
    Operation × List Server × List String :=
  match aliasServer with
  | some server =>
    if currentMethod.servers.length ≠ 0 ∧ server.url ≠ "" ∧
        ¬ currentMethod.servers.any (fun srv => srv.url = server.url) then
      ({ currentMethod with servers := currentMethod.servers ++ [server] },
       addServerToDocument docServers server, [])
    else
      (currentMethod, docServers, [dupWarning method path cachedAction])
  | none => (currentMethod, docServers, [dupWarning method path cachedAction])

/-- The condition claim C2 states, written from the spec's words: the
later route's would-be operation differs from the existing operation
only by one additional server entry. -/
def onlyDifferenceIsAddedServer (existing incoming : Operation) : Prop :=
  incoming.summary = existing.summary ∧
  ∃ s, incoming.servers = existing.servers ++ [s] ∧ s ∉ existing.servers

/-- Claim C2 (amended): for an already-present (path, method), the
append branch is taken iff the existing operation's server list is
non-empty, the later route's service declares a server with a non-empty
URL, and that URL is absent from the operation's servers — regardless of
any other difference between the operations. In that case the server is
appended to the operation and, deduplicated by URL, to the document's
server list, with no warning; in every other case a warning naming the
first-registering action is logged and the operation and the document's
servers are left unchanged. -/
theorem handleExistingMethod_spec (cur : Operation) (aliasServer : Option Server)
    (docServers : List Server) (cached : Option String) (method path : String) :
    (∀ server, aliasServer = some server →
      cur.servers ≠ [] → server.url ≠ "" → (∀ srv ∈ cur.servers, srv.url ≠ server.url) →
      handleExistingMethod cur aliasServer docServers cached method path =
        ({ cur with servers := cur.servers ++ [server] },
         addServerToDocument docServers server, [])) ∧
    ((aliasServer = none ∨ ∃ server, aliasServer = some server ∧
        (cur.servers = [] ∨ server.url = "" ∨ ∃ srv ∈ cur.servers, srv.url = server.url)) →
      handleExistingMethod cur aliasServer docServers cached method path =
        (cur, docServers, [dupWarning method path cached])) := by
  constructor
  · intro server hserver hne hurl hnotin
    subst hserver
    rw [handleExistingMethod, if_pos]
    refine ⟨by simpa using hne, hurl, ?_⟩
    simp only [List.any_eq_true, not_exists]
    intro srv h
    exact absurd (of_decide_eq_true h.2) (hnotin srv h.1)
  · intro hcase
    rcases hcase with h | ⟨server, hserver, hbad⟩
    · subst h
      rfl
    · subst hserver
      rw [handleExistingMethod, if_neg]
      intro ⟨hne, hurl, hnotin⟩
      rcases hbad with h | h | ⟨srv, hmem, hurleq⟩
      · rw [h] at hne
        simp at hne
      · exact hurl h
      · exact hnotin (by simp only [List.any_eq_true]; exact ⟨srv, hmem, by simp [hurleq]⟩)

/-- Witness for the amended C2: a later route adding URL `"B"` to an
operation already carrying `"A"` appends with no warning; a later route
whose service declares no server triggers the warning naming the first
action. -/
theorem handleExistingMethod_spec_witness :
    handleExistingMethod { summary := some "one", servers := [⟨"A", none⟩] }
        (some ⟨"B", none⟩) [] (some "pets.list") "get" "/pets" =
      ({ summary := some "one", servers := [⟨"A", none⟩, ⟨"B", none⟩] },
       [⟨"B", none⟩], []) ∧
    handleExistingMethod { summary := some "one", servers := [⟨"A", none⟩] }
        none [] (some "pets.list") "get" "/pets" =
      ({ summary := some "one", servers := [⟨"A", none⟩] }, [],
       [dupWarning "get" "/pets" (some "pets.list")]) :=
  ⟨(handleExistingMethod_spec { summary := some "one", servers := [⟨"A", none⟩] }
      (some ⟨"B", none⟩) [] (some "pets.list") "get" "/pets").1 ⟨"B", none⟩ rfl
      (by simp) (by simp) (by decide),
   (handleExistingMethod_spec { summary := some "one", servers := [⟨"A", none⟩] }
      none [] (some "pets.list") "get" "/pets").2 (Or.inl rfl)⟩

/-- Counterexample to C2 as stated: the later route's would-be operation
differs from the existing one only by an added server entry, yet because
the existing operation's server list is empty the code logs the warning
and drops the route instead of appending the server. -/
theorem handleExistingMethod_only_server_diff_counterexample :
    onlyDifferenceIsAddedServer { summary := some "same", servers := [] }
      { summary := some "same", servers := [⟨"https://api.example.com", none⟩] } ∧
    handleExistingMethod { summary := some "same", servers := [] }
        (some ⟨"https://api.example.com", none⟩) [] (some "first.action") "get" "/pets" =
      ({ summary := some "same", servers := [] }, [],
       [dupWarning "get" "/pets" (some "first.action")]) := by
  constructor
  · exact ⟨rfl, ⟨"https://api.example.com", none⟩, rfl, by simp⟩
  · rfl

/-- Modelled from the spec: the comparator `getAlphabeticSorter('fullPath')`
lives in `commons.ts` (not among the given sources); the spec fixes
"Sort routes by full path, lexicographically ascending (stable …)".
Lexicographic code-point order on char lists. -/
def lexLe : List Char → List Char → Bool
  | [], _ => true
  | _ :: _, [] => false
  | a :: as, b :: bs => if a = b then lexLe as bs else decide (a.toNat < b.toNat)

/-- Lexicographic ascending order on strings. -/
def strLe (a b : String) : Bool := lexLe a.data b.data

theorem lexLe_total (a : List Char) : ∀ b, lexLe a b = true ∨ lexLe b a = true := by
  induction a with
  | nil => intro b; left; rfl
  | cons x as ih =>
    intro b
    cases b with
    | nil => right; rfl
    | cons y bs =>
      by_cases hxy : x = y
      · subst hxy
        simp only [lexLe, if_pos rfl]
        exact ih bs
      · have hv : x.toNat ≠ y.toNat := fun hh => hxy (Char.ext (UInt32.ext hh))
        simp only [lexLe, if_neg hxy, if_neg (Ne.symm hxy), decide_eq_true_eq]
        omega

theorem lexLe_trans (a : List Char) :
    ∀ b c, lexLe a b = true → lexLe b c = true → lexLe a c = true := by
  induction a with
  | nil => intro b c _ _; rfl
  | cons x as ih =>
    intro b c hab hbc
    cases b with
    | nil => simp [lexLe] at hab
    | cons y bs =>
      cases c with
      | nil => simp [lexLe] at hbc
      | cons z cs =>
        by_cases hxy : x = y
        · subst hxy
          simp only [lexLe, if_pos rfl] at hab
          by_cases hyz : x = z
          · subst hyz
            simp only [lexLe, if_pos rfl] at hbc ⊢
            exact ih bs cs hab hbc
          · simp only [lexLe, if_neg hyz] at hbc ⊢
            exact hbc
        · simp only [lexLe, if_neg hxy, decide_eq_true_eq] at hab
          by_cases hyz : y = z
          · subst hyz
            simp only [lexLe, if_neg hxy, decide_eq_true_eq]
            exact hab
          · simp only [lexLe, if_neg hyz, decide_eq_true_eq] at hbc
            have hxz : x ≠ z := by
              intro hh
              subst hh
              omega
            simp only [lexLe, if_neg hxz, decide_eq_true_eq]
            omega

theorem lexLe_antisymm (a : List Char) :
    ∀ b, lexLe a b = true → lexLe b a = true → a = b := by
  induction a with
  | nil =>
    intro b _ hba
    cases b with
    | nil => rfl
    | cons y bs => simp [lexLe] at hba
  | cons x as ih =>
    intro b hab hba
    cases b with
    | nil => simp [lexLe] at hab
    | cons y bs =>
      by_cases hxy : x = y
      · subst hxy
        simp only [lexLe, if_pos rfl] at hab hba
        rw [ih bs hab hba]
      · simp only [lexLe, if_neg hxy, if_neg (Ne.symm hxy), decide_eq_true_eq] at hab hba
        omega

/-- The sorting relation on strings induced by the comparator. -/
def strLeRel (a b : String) : Prop := strLe a b = true

instance : DecidableRel strLeRel := fun a b => instDecidableEqBool (strLe a b) true

instance : IsTotal String strLeRel :=
  ⟨fun a b => lexLe_total a.data b.data⟩

instance : IsTrans String strLeRel :=
  ⟨fun a b c => lexLe_trans a.data b.data c.data⟩

instance : IsAntisymm String strLeRel :=
  ⟨fun a b hab hba => String.ext (lexLe_antisymm a.data b.data hab hba)⟩

/-- The alias fields the `generate` sorting/path steps read: the full
path plus a payload standing for everything else on the alias. -/
structure AliasLite where
  fullPath : String
  payload : String := ""
deriving DecidableEq

/-- The sorting relation of `aliases.sort(getAlphabeticSorter('fullPath'))`
(OpenApiGenerator.ts:77): compare aliases by their full path. -/
def aliasLe (a b : AliasLite) : Prop := strLeRel a.fullPath b.fullPath

instance : DecidableRel aliasLe := fun a b => instDecidableEqBool (strLe a.fullPath b.fullPath) true

instance : IsTotal AliasLite aliasLe :=
  ⟨fun a b => lexLe_total a.fullPath.data b.fullPath.data⟩

instance : IsTrans AliasLite aliasLe :=
  ⟨fun a b c => lexLe_trans a.fullPath.data b.fullPath.data c.fullPath.data⟩

/-- `aliases.sort(getAlphabeticSorter('fullPath'))`
(OpenApiGenerator.ts:77), as a stable sort by full path (the spec fixes
the sort as stable; insertion sort realises that). JS `Array.sort` works
in place — the explicit-state embedding returns the array's new
contents. -/
def sortAliases (aliases : List AliasLite) : List AliasLite :=
  List.insertionSort aliasLe aliases

/-- Claim C10: `generate(version, aliases)` mutates its caller-supplied
route list — `aliases.sort(...)` on line 77 sorts the array in place, so
after `generate()` returns, the same array holds the routes reordered
ascending by full path (a permutation of the input, sorted by
`fullPath`), not the registration order; a concrete unsorted input
witnesses that the contents really change. -/
theorem generate_sorts_caller_alias_array_in_place (aliases : List AliasLite) :
    (sortAliases aliases).Perm aliases ∧
    List.Sorted aliasLe (sortAliases aliases) ∧
    sortAliases [⟨"/b", "second"⟩, ⟨"/a", "first"⟩] ≠ [⟨"/b", "second"⟩, ⟨"/a", "first"⟩] := by
  refine ⟨List.perm_insertionSort aliasLe aliases,
    List.sorted_insertionSort aliasLe aliases, ?_⟩
  decide

/-- JS `url.indexOf('/:')` (OpenApiGenerator.ts:526): index of the first
occurrence of the two-character sequence. -/
def idxOfSlashColon : List Char → Option Nat
  | [] => none
  | [_] => none
  | a :: b :: rest =>
    if a = '/' ∧ b = ':' then some 0
    else (idxOfSlashColon (b :: rest)).map (· + 1)

/-- `OpenApiGenerator.formatParamUrl` (OpenApiGenerator.ts:525-538),
converting `/:param` segments to `/{param}`: find `/:`; with no further
`/` wrap the rest of the string in braces, else wrap the segment and
recurse on the partially rewritten URL (`url.indexOf('/', ++start)`
searches from the character after the `/`). Each step removes one `/:`
occurrence, so the input length bounds the recursion (fuel). -/
def fmtGo : Nat → List Char → List Char
  | 0, cs => cs
  | fuel + 1, cs =>
    match idxOfSlashColon cs with
    | none => cs
    | some i =>
      let start := i + 1
      match (cs.drop start).findIdx? (fun ch => ch = '/') with
      | none => cs.take start ++ ['{'] ++ cs.drop (start + 1) ++ ['}']
      | some j =>
        let e := start + j
        fmtGo fuel
          (cs.take start ++ ['{'] ++ ((cs.drop (start + 1)).take (e - (start + 1)))
            ++ ['}'] ++ cs.drop e)

/-- `formatParamUrl` on strings. -/
def formatParamUrl (url : String) : String := ⟨fmtGo url.data.length url.data⟩

/-- Modelled from the spec: `normalizePath` of `commons.ts` is not among
the given sources, and the spec describes no path rewriting besides
placeholder formatting ("URL template with `{param}` or `:param` style
placeholders"); it is modelled as the identity on the already-normalised
paths the claims quantify over. -/
def normalizePath (p : String) : String := p

/-- First-occurrence deduplication: JS object insertion semantics for
`document.paths[openapiPath] = currentPath` — re-assigning an existing
key keeps its original position. -/
def dedupFirstGo (seen : List String) : List String → List String
  | [] => []
  | x :: xs =>
    if seen.contains x then dedupFirstGo seen xs
    else x :: dedupFirstGo (x :: seen) xs

/-- Key sequence with first occurrences kept. -/
def dedupFirst (l : List String) : List String := dedupFirstGo [] l

/-- The sequence of path keys `generate` inserts into `document.paths`
(OpenApiGenerator.ts:77-173): aliases sorted by full path, each mapped
through `formatParamUrl(normalizePath(alias.fullPath))`, keys keeping
their first-insertion position. -/
def pathKeys (aliases : List AliasLite) : List String :=
  dedupFirst ((sortAliases aliases).map (fun a => formatParamUrl (normalizePath a.fullPath)))

/-- Claim C4 (amended): the path-key sequence of the generated document
is invariant under permutation of the route list, and equals the
formatted images of the routes' full paths taken in ascending
lexicographic order of the *raw* full path (first occurrence kept). The
formatted keys themselves need not be in ascending string order, because
`/:param → /{param}` formatting does not preserve the order (refuted
separately). -/
theorem pathKeys_perm_invariant_and_sorted_by_raw_path (l1 l2 : List AliasLite)
    (h : l1.Perm l2) :
    pathKeys l1 = pathKeys l2 ∧
    ∃ s : List String, s.Perm (l1.map AliasLite.fullPath) ∧
      List.Sorted strLeRel s ∧
      pathKeys l1 = dedupFirst (s.map (fun p => formatParamUrl (normalizePath p))) := by
  have hsorted1 : List.Sorted strLeRel ((sortAliases l1).map AliasLite.fullPath) :=
    List.Pairwise.map AliasLite.fullPath (fun a b hab => hab)
      (List.sorted_insertionSort aliasLe l1)
  have hsorted2 : List.Sorted strLeRel ((sortAliases l2).map AliasLite.fullPath) :=
    List.Pairwise.map AliasLite.fullPath (fun a b hab => hab)
      (List.sorted_insertionSort aliasLe l2)
  have hperm : ((sortAliases l1).map AliasLite.fullPath).Perm
      ((sortAliases l2).map AliasLite.fullPath) :=
    ((List.perm_insertionSort aliasLe l1).trans (h.trans
      (List.perm_insertionSort aliasLe l2).symm)).map AliasLite.fullPath
  have heqpaths : (sortAliases l1).map AliasLite.fullPath
      = (sortAliases l2).map AliasLite.fullPath :=
    List.eq_of_perm_of_sorted hperm hsorted1 hsorted2
  constructor
  · unfold pathKeys
    have h1 : (sortAliases l1).map (fun a => formatParamUrl (normalizePath a.fullPath))
        = ((sortAliases l1).map AliasLite.fullPath).map
            (fun p => formatParamUrl (normalizePath p)) := by
      rw [List.map_map]
      rfl
    have h2 : (sortAliases l2).map (fun a => formatParamUrl (normalizePath a.fullPath))
        = ((sortAliases l2).map AliasLite.fullPath).map
            (fun p => formatParamUrl (normalizePath p)) := by
      rw [List.map_map]
      rfl
    rw [h1, h2, heqpaths]
  · refine ⟨(sortAliases l1).map AliasLite.fullPath,
      (List.perm_insertionSort aliasLe l1).map AliasLite.fullPath, hsorted1, ?_⟩
    unfold pathKeys
    rw [List.map_map]
    rfl

/-- Witness for the amended C4: two orderings of the same three routes
yield the same key sequence, ascending by raw full path. -/
theorem pathKeys_perm_invariant_witness :
    pathKeys [⟨"/users/:id", ""⟩, ⟨"/pets", ""⟩, ⟨"/users", ""⟩]
      = pathKeys [⟨"/users", ""⟩, ⟨"/users/:id", ""⟩, ⟨"/pets", ""⟩] ∧
    ∃ s : List String,
      s.Perm ([⟨"/users/:id", ""⟩, ⟨"/pets", ""⟩, ⟨"/users", ""⟩].map AliasLite.fullPath) ∧
      List.Sorted strLeRel s ∧
      pathKeys [⟨"/users/:id", ""⟩, ⟨"/pets", ""⟩, ⟨"/users", ""⟩]
        = dedupFirst (s.map (fun p => formatParamUrl (normalizePath p))) :=
  pathKeys_perm_invariant_and_sorted_by_raw_path
    [⟨"/users/:id", ""⟩, ⟨"/pets", ""⟩, ⟨"/users", ""⟩]
    [⟨"/users", ""⟩, ⟨"/users/:id", ""⟩, ⟨"/pets", ""⟩]
    (by decide)

/-- Counterexample to C4 as stated: routes `/a/:b` and `/a/Z` sort (by
raw path, `:` before `Z`) to the key sequence `["/a/{b}", "/a/Z"]`,
which is *not* ascending as strings (`{` sorts after `Z`) — the output
path keys are not in ascending lexicographic order of the full path
string. -/
theorem pathKeys_not_sorted_counterexample :
    pathKeys [⟨"/a/Z", ""⟩, ⟨"/a/:b", ""⟩] = ["/a/{b}", "/a/Z"] ∧
    strLe "/a/{b}" "/a/Z" = false ∧
    ¬ List.Sorted strLeRel ["/a/{b}", "/a/Z"] := by
  refine ⟨by decide, by decide, ?_⟩
  intro hs
  have := List.rel_of_sorted_cons hs "/a/Z" (by simp)
  simp [strLeRel] at this
  have hfalse : strLe "/a/{b}" "/a/Z" = false := by decide
  rw [this] at hfalse
  cases hfalse
